import Mathlib

/-!
# The worker loops and the batch executor of `align_parallel/align_interface.h`

A shallow embedding of `ScalarWorker::operator()`, `SimdWorker::operator()` and
`BatchAlignmentExecutor::run` from
`include/seqan/align_parallel/align_interface.h`.

The header uses, but does not declare, the queue (`lockWriting`, `popFront`,
`length`, `waitForWriters`), the task type with its `execute`, the scheduler
with `schedule`, `make_zip` and `numParallelWorkers`.  The worker loops take the
queue functions and `execute` as parameters; the queue itself is modelled from
the specification in `ConcurrentQueue` below.

Modelling conventions.

* A task pointer is an `Option Task`; `none` is `nullptr`.
* The `while (true)` loops take a fuel argument; the theorems show how much
  fuel is enough for the loop to leave by itself.
* One worker is run at a time, so the `std::lock_guard` on `mLock` of
  `SimdWorker` has no effect in the model.
* In `SimdWorker` the names `*workQueuePtr` and `mThreadId` are not declared in
  the header.  `*workQueuePtr` is read as the queue `queueContext.mQueue` the
  same loop pops its first task from; `mThreadId` is handed to `execute`
  unchanged and is left out.
* `VECTOR_SIZE - 1` is natural-number subtraction, which is the C++ value for
  every `VECTOR_SIZE >= 1`.
-/

namespace seqan
namespace impl

/-! ## Data model -/

/-- What one call of `popFront(queue)` does: it hands out a task pointer and
leaves the queue `q`, or it returns `nullptr`, or it never returns. -/
inductive PopResult (Task Q : Type) where
  | task (t : Task) (q : Q)
  | null
  | blocked
deriving DecidableEq

/-- The queue functions the two workers call.  Their declarations are not part of
the header, so the workers take them as parameters. -/
structure QueueOps (Task Q : Type) where
  lockWriting : Q → Q
  popFront : Q → PopResult Task Q
  length : Q → Nat

/-- The second argument of `execute`: `Nothing()` in `ScalarWorker`, the vector
`tasks` in `SimdWorker`. -/
inductive CoBatch (Task : Type) where
  | Nothing
  | tasks (ts : List (Option Task))
deriving DecidableEq

/-- What one call of `execute` does to the worker: it returns (its value, here
the flag `err` for a reported failure, is discarded by both loops) or it throws.
In both cases it may have changed the queue it was given. -/
inductive ExecResult (Q : Type) where
  | returned (err : Bool) (q : Q)
  | threw (q : Q)
deriving DecidableEq

/-- How a run of `operator()` ends: the `return` statement, an exception leaving
the function, a `popFront` that never returns, or the fuel of the model running
out while the loop is still going. -/
inductive Exit where
  | returned
  | threw
  | blocked
  | running
deriving DecidableEq

/-- The observable run of a worker: its calls of `execute` in order (task and
co-batch argument), the queue it leaves and how it ended. -/
structure WorkerTrace (Task Q : Type) where
  calls : List (Task × CoBatch Task)
  queue : Q
  exit : Exit
deriving DecidableEq

/-! ## `ScalarWorker` (lines 50-69) -/

/-- The `while (true)` loop of `ScalarWorker::operator()` (lines 58-67). -/
def ScalarWorker.loop {Task Q : Type} (ops : QueueOps Task Q)
    (execute : Task → CoBatch Task → Q → ExecResult Q) : Nat → Q → WorkerTrace Task Q
  | 0, q => ⟨[], q, Exit.running⟩
  | fuel + 1, q =>
    match ops.popFront q with
    | PopResult.null => ⟨[], q, Exit.returned⟩
    | PopResult.blocked => ⟨[], q, Exit.blocked⟩
    | PopResult.task task q1 =>
      match execute task CoBatch.Nothing q1 with
      | ExecResult.threw q2 => ⟨[(task, CoBatch.Nothing)], q2, Exit.threw⟩
      | ExecResult.returned _ q2 =>
        let rest := ScalarWorker.loop ops execute fuel q2
        ⟨(task, CoBatch.Nothing) :: rest.calls, rest.queue, rest.exit⟩

/-- The body of `ScalarWorker::operator()` (lines 55-68): `lockWriting`, then the
loop. -/
def ScalarWorker {Task Q : Type} (ops : QueueOps Task Q)
    (execute : Task → CoBatch Task → Q → ExecResult Q) (fuel : Nat) (q : Q) :
    WorkerTrace Task Q :=
  ScalarWorker.loop ops execute fuel (ops.lockWriting q)

/-! ## `SimdWorker` (lines 71-102) -/

/-- The call `tasks.clear()` (line 84). -/
def SimdWorker.clear {Task : Type} (_tasks : List (Option Task)) : List (Option Task) := []

/-- The `for` loop of lines 93-94, run `n` times:
`tasks.push_back(popFront(queue))`.  A `nullptr` returned by `popFront` is pushed
like any other pointer.  The result is the filled vector, or `none` when a
`popFront` never returns, together with the queue as the pops so far have left
it. -/
def SimdWorker.fill {Task Q : Type} (ops : QueueOps Task Q) :
    Nat → List (Option Task) → Q → Option (List (Option Task)) × Q
  | 0, tasks, q => (some tasks, q)
  | n + 1, tasks, q =>
    match ops.popFront q with
    | PopResult.task t q1 => SimdWorker.fill ops n (tasks ++ [some t]) q1
    | PopResult.null => SimdWorker.fill ops n (tasks ++ [none]) q
    | PopResult.blocked => (none, q)

/-- What the locked block of one iteration yields: the first `popFront` returned
`nullptr`; or some `popFront` never returns, the queue being `q` at that point;
or the primary task, the vector `tasks` and the queue left. -/
inductive Gathered (Task Q : Type) where
  | null
  | blocked (q : Q)
  | group (task : Task) (tasks : List (Option Task)) (q : Q)
deriving DecidableEq

/-- Lines 83-96 of `SimdWorker::operator()`: clear the buffer, pop the first
task, return on `nullptr`, and pop `VECTOR_SIZE - 1` more tasks when the queue
holds at least that many. -/
def SimdWorker.gather {Task Q : Type} (ops : QueueOps Task Q) (VECTOR_SIZE : Nat)
    (tasks : List (Option Task)) (q : Q) : Gathered Task Q :=
  let tasks := SimdWorker.clear tasks
  match ops.popFront q with
  | PopResult.null => Gathered.null
  | PopResult.blocked => Gathered.blocked q
  | PopResult.task task q1 =>
    if VECTOR_SIZE - 1 ≤ ops.length q1 then
      match SimdWorker.fill ops (VECTOR_SIZE - 1) tasks q1 with
      | (none, q2) => Gathered.blocked q2
      | (some tasks, q2) => Gathered.group task tasks q2
    else
      Gathered.group task tasks q1

/-- The `while (true)` loop of `SimdWorker::operator()` (lines 81-100).  The
vector `tasks` is declared outside the loop and is therefore loop state. -/
def SimdWorker.loop {Task Q : Type} (ops : QueueOps Task Q) (VECTOR_SIZE : Nat)
    (execute : Task → CoBatch Task → Q → ExecResult Q) :
    Nat → List (Option Task) → Q → WorkerTrace Task Q
  | 0, _, q => ⟨[], q, Exit.running⟩
  | fuel + 1, tasks, q =>
    match SimdWorker.gather ops VECTOR_SIZE tasks q with
    | Gathered.null => ⟨[], q, Exit.returned⟩
    | Gathered.blocked q1 => ⟨[], q1, Exit.blocked⟩
    | Gathered.group task tasks q2 =>
      match execute task (CoBatch.tasks tasks) q2 with
      | ExecResult.threw q3 => ⟨[(task, CoBatch.tasks tasks)], q3, Exit.threw⟩
      | ExecResult.returned _ q3 =>
        let rest := SimdWorker.loop ops VECTOR_SIZE execute fuel tasks q3
        ⟨(task, CoBatch.tasks tasks) :: rest.calls, rest.queue, rest.exit⟩

/-- The body of `SimdWorker::operator()` (lines 75-101): `lockWriting`, an empty
vector `tasks`, then the loop. -/
def SimdWorker {Task Q : Type} (ops : QueueOps Task Q) (VECTOR_SIZE : Nat)
    (execute : Task → CoBatch Task → Q → ExecResult Q) (fuel : Nat) (q : Q) :
    WorkerTrace Task Q :=
  SimdWorker.loop ops VECTOR_SIZE execute fuel [] (ops.lockWriting q)

/-- The task pointers one call of `execute` is about: the task it is called on
followed by the members of its co-batch. -/
def handedBy {Task : Type} : Task × CoBatch Task → List (Option Task)
  | (t, CoBatch.Nothing) => [some t]
  | (t, CoBatch.tasks ts) => some t :: ts

/-- All task pointers a worker run hands to `execute`, over all iterations. -/
def WorkerTrace.handed {Task Q : Type} (r : WorkerTrace Task Q) : List (Option Task) :=
  r.calls.flatMap handedBy

/-! ## The queue -/

/-- Modelled from the spec: `ConcurrentQueue`, whose declaration is not in the
header.  The queue is an ordered sequence of task handles, oldest first, together
with the count of registered producers (writers). -/
structure ConcurrentQueue (Task : Type) where
  items : List Task
  writerCount : Nat
deriving DecidableEq

namespace ConcurrentQueue

/-- Modelled from the spec: `lockWriting`, which with `waitForWriters` is the
draft form of the producer-count primitive of the queue (its
`registerProducer`): one more producer (writer) is registered. -/
def lockWriting {Task : Type} (q : ConcurrentQueue Task) : ConcurrentQueue Task :=
  ⟨q.items, q.writerCount + 1⟩

/-- Modelled from the spec: `push(task)` appends a task; it does not touch the
producer count. -/
def appendValue {Task : Type} (q : ConcurrentQueue Task) (t : Task) : ConcurrentQueue Task :=
  ⟨q.items ++ [t], q.writerCount⟩

/-- Modelled from the spec: `length(queue)`, the number of pending tasks. -/
def length {Task : Type} (q : ConcurrentQueue Task) : Nat :=
  q.items.length

/-- Modelled from the spec: `pop()` removes and returns the oldest task; it blocks
if the queue is empty and at least one producer is still registered; it returns
the sentinel once the queue is empty and the producer count is zero. -/
def popFront {Task : Type} (q : ConcurrentQueue Task) : PopResult Task (ConcurrentQueue Task) :=
  match q.items with
  | t :: rest => PopResult.task t ⟨rest, q.writerCount⟩
  | [] => if q.writerCount = 0 then PopResult.null else PopResult.blocked

/-- Modelled from the spec: `popFront` on a closed queue: it returns the oldest
task, and the null sentinel once the queue is empty; it never blocks. -/
def popFrontClosed {Task : Type} (q : ConcurrentQueue Task) :
    PopResult Task (ConcurrentQueue Task) :=
  match q.items with
  | t :: rest => PopResult.task t ⟨rest, q.writerCount⟩
  | [] => PopResult.null

/-- Modelled from the spec: the queue functions of an open queue. -/
def ops {Task : Type} : QueueOps Task (ConcurrentQueue Task) :=
  ⟨lockWriting, popFront, length⟩

/-- Modelled from the spec: the queue functions of a closed queue. -/
def closedOps {Task : Type} : QueueOps Task (ConcurrentQueue Task) :=
  ⟨lockWriting, popFrontClosed, length⟩

end ConcurrentQueue

/-! ## `BatchAlignmentExecutor::run` (lines 122-192) -/

/-- What `run` reads from its `context` argument: the value of
`numParallelWorkers(context)` and whether the execution policy is a vector
execution policy (`IsVectorExecutionPolicy`, line 144). -/
structure Context where
  numParallelWorkers : Nat
  isVectorExecutionPolicy : Bool
deriving DecidableEq

/-- The callable a pool thread is started with (line 155). -/
inductive PoolWorker where
  | ScalarWorker
  | SimdWorker
deriving DecidableEq

/-- The request object built in line 190:
`AICallableRaiiWrapper<TAlignmentInstance>{seqH, seqV, config, delegate}`, where
`config` is the first argument of `run` as `align_batch` passes it. -/
structure AICallableRaiiWrapper (SeqH SeqV Delegate : Type) where
  seqH : SeqH
  seqV : SeqV
  config : Context
  delegate : Delegate
deriving DecidableEq

/-- The calls `run` makes on the pool, the queue and the scheduler. -/
inductive RunCall (SeqH SeqV Delegate : Type) where
  | emplaceBack (worker : PoolWorker)
  | waitForWriters (writerCount : Nat)
  | scheduler
  | schedule (callable : AICallableRaiiWrapper SeqH SeqV Delegate)
deriving DecidableEq

/-- What the caller of `run` observes: the calls made, in order, and how `run`
ended.  `run` is a `void` function without a `throw`, a `catch` or a length check
of its own: it returns, or an error raised by a function it calls leaves it and
reaches its caller (`Exit.threw`). -/
structure RunResult (SeqH SeqV Delegate : Type) where
  calls : List (RunCall SeqH SeqV Delegate)
  exit : Exit
deriving DecidableEq

/-- Modelled from the spec: `make_zip`, which is not declared in the header,
pairs up the two batches element-wise; equal length is required, and mismatched
lengths are a precondition violation, reported to the caller before any
scheduling occurs (`none`). -/
def make_zip {SeqH SeqV : Type} (seqSetH : List SeqH) (seqSetV : List SeqV) :
    Option (List (SeqH × SeqV)) :=
  if seqSetH.length = seqSetV.length then some (List.zip seqSetH seqSetV) else none

/-- The body of `BatchAlignmentExecutor::run` (lines 122-192): the pool loop of lines
154-155, `waitForWriters` (line 157), the declaration of the scheduler (line
177), `make_zip` (line 182) and the loop over the zipped batches of lines
184-191.  An error raised by `make_zip` meets no handler in `run` and leaves it
before the loop. -/
def run {SeqH SeqV Delegate : Type} (context : Context) (seqBatchH : List SeqH)
    (seqBatchV : List SeqV) (delegate : Delegate) : RunResult SeqH SeqV Delegate :=
  let pool : List (RunCall SeqH SeqV Delegate) :=
    List.replicate context.numParallelWorkers (RunCall.emplaceBack PoolWorker.ScalarWorker)
  let started : List (RunCall SeqH SeqV Delegate) :=
    pool ++ [RunCall.waitForWriters context.numParallelWorkers, RunCall.scheduler]
  match make_zip seqBatchH seqBatchV with
  | none => ⟨started, Exit.threw⟩
  | some zip_cont =>
    let scheduled : List (RunCall SeqH SeqV Delegate) :=
      zip_cont.map (fun tie => RunCall.schedule ⟨tie.1, tie.2, context, delegate⟩)
    ⟨started ++ scheduled, Exit.returned⟩

/-- The worker a call puts into the pool, if it is an `emplaceBack`. -/
def RunCall.worker {SeqH SeqV Delegate : Type} : RunCall SeqH SeqV Delegate → Option PoolWorker
  | RunCall.emplaceBack w => some w
  | _ => none

/-- The request a call hands to the scheduler, if it is a `schedule`. -/
def RunCall.callable {SeqH SeqV Delegate : Type} :
    RunCall SeqH SeqV Delegate → Option (AICallableRaiiWrapper SeqH SeqV Delegate)
  | RunCall.schedule callable => some callable
  | _ => none

/-- The workers `run` has put into the pool. -/
def RunResult.poolWorkers {SeqH SeqV Delegate : Type} (r : RunResult SeqH SeqV Delegate) :
    List PoolWorker :=
  r.calls.filterMap RunCall.worker

/-- The requests `run` has handed to `schedule`, in call order. -/
def RunResult.scheduled {SeqH SeqV Delegate : Type} (r : RunResult SeqH SeqV Delegate) :
    List (AICallableRaiiWrapper SeqH SeqV Delegate) :=
  r.calls.filterMap RunCall.callable

/-- The worker the configuration selects: `SimdWorker` for a vector execution
policy, `ScalarWorker` otherwise. -/
def selectedWorker (context : Context) : PoolWorker :=
  if context.isVectorExecutionPolicy then PoolWorker.SimdWorker else PoolWorker.ScalarWorker

/-! ## The writer count of the queue during `run` -/

/-- Modelled from the spec: the effect of one call of `run` on the queue, the
called functions `emplaceBack`, `waitForWriters` and `schedule` not being
declared in the header.  A pool thread started by `emplaceBack` runs the worker,
whose first statement is `lockWriting(queueContext.mQueue)` (lines 57 and 79);
`waitForWriters(queue, n)` is the start-up barrier: it returns only once `n`
writers are registered (`none`: it does not return); the declaration of the
scheduler (line 177) calls nothing on the queue; `schedule` wraps the request
into a task and pushes it.  No line of `run` registers or releases a writer
itself. -/
def applyCall {SeqH SeqV Delegate : Type}
    (q : ConcurrentQueue (AICallableRaiiWrapper SeqH SeqV Delegate)) :
    RunCall SeqH SeqV Delegate →
    Option (ConcurrentQueue (AICallableRaiiWrapper SeqH SeqV Delegate))
  | RunCall.emplaceBack _ => some (ConcurrentQueue.ops.lockWriting q)
  | RunCall.waitForWriters n => if n ≤ q.writerCount then some q else none
  | RunCall.scheduler => some q
  | RunCall.schedule callable => some (q.appendValue callable)

/-- The queue after each call of a run, as pairs of the call and the queue it
leaves.  The replay stops at a call that does not return. -/
def replay {SeqH SeqV Delegate : Type} :
    ConcurrentQueue (AICallableRaiiWrapper SeqH SeqV Delegate) →
    List (RunCall SeqH SeqV Delegate) →
    List (RunCall SeqH SeqV Delegate × ConcurrentQueue (AICallableRaiiWrapper SeqH SeqV Delegate))
  | _, [] => []
  | q, c :: cs =>
    match applyCall q c with
    | none => []
    | some q1 => (c, q1) :: replay q1 cs

/-- The queue when the last call of a replay has returned. -/
def finalQueue {SeqH SeqV Delegate : Type} :
    ConcurrentQueue (AICallableRaiiWrapper SeqH SeqV Delegate) →
    List (RunCall SeqH SeqV Delegate) →
    ConcurrentQueue (AICallableRaiiWrapper SeqH SeqV Delegate)
  | q, [] => q
  | q, c :: cs =>
    match applyCall q c with
    | none => q
    | some q1 => finalQueue q1 cs

/-- The queue once `run` has made its last call, started on the empty queue
without writers that `queueContext` is constructed with. -/
def afterBatch {SeqH SeqV Delegate : Type} (context : Context) (seqBatchH : List SeqH)
    (seqBatchV : List SeqV) (delegate : Delegate) :
    ConcurrentQueue (AICallableRaiiWrapper SeqH SeqV Delegate) :=
  finalQueue ⟨[], 0⟩ (run context seqBatchH seqBatchV delegate).calls

/-- A queue with its pending tasks taken out: what the workers leave of it. -/
def ConcurrentQueue.drained {Task : Type} (q : ConcurrentQueue Task) : ConcurrentQueue Task :=
  ⟨[], q.writerCount⟩

/-! ## Assumptions on the parameters, and sample parameters -/

/-- The function `execute` returns normally and leaves the queue as it found it:
the task pushes no follow-up task. -/
def Quiet {Task Q : Type} (execute : Task → CoBatch Task → Q → ExecResult Q) : Prop :=
  ∀ t co q, ∃ err, execute t co q = ExecResult.returned err q

/-- Queue functions that hand out the pending tasks oldest first, hand out no
task when none is pending, and report the number of pending tasks. -/
structure Fifo {Task : Type} (o : QueueOps Task (ConcurrentQueue Task)) : Prop where
  pop_cons : ∀ t r w, o.popFront ⟨t :: r, w⟩ = PopResult.task t ⟨r, w⟩
  pop_nil : ∀ w t q, o.popFront ⟨[], w⟩ ≠ PopResult.task t q
  length_eq : ∀ q, o.length q = q.items.length

/-- An `execute` that returns without an error and without touching the queue. -/
def quietExecute (_t : Nat) (_co : CoBatch Nat) (q : ConcurrentQueue Nat) :
    ExecResult (ConcurrentQueue Nat) :=
  ExecResult.returned false q

theorem quietExecute_quiet : Quiet quietExecute :=
  fun _ _ _ => ⟨false, rfl⟩

theorem fifo_ops {Task : Type} : Fifo (ConcurrentQueue.ops : QueueOps Task _) := by
  refine ⟨fun _ _ _ => rfl, fun w t q h => ?_, fun _ => rfl⟩
  simp only [ConcurrentQueue.ops, ConcurrentQueue.popFront] at h
  split at h <;> cases h

theorem fifo_closedOps {Task : Type} : Fifo (ConcurrentQueue.closedOps : QueueOps Task _) :=
  ⟨fun _ _ _ => rfl, fun _ _ _ h => PopResult.noConfusion h, fun _ => rfl⟩

theorem fill_of_le {Task : Type} {o : QueueOps Task (ConcurrentQueue Task)} (ho : Fifo o)
    (n : Nat) : ∀ (acc : List (Option Task)) (xs : List Task) (w : Nat), n ≤ xs.length →
    SimdWorker.fill o n acc ⟨xs, w⟩
      = (some (acc ++ (xs.take n).map some), ⟨xs.drop n, w⟩) := by
  induction n with
  | zero => intro acc xs w _; simp [SimdWorker.fill]
  | succ n ih =>
    intro acc xs w h
    cases xs with
    | nil => simp at h
    | cons x xs =>
      have h1 : n ≤ xs.length := by simpa using h
      simp [SimdWorker.fill, ho.pop_cons, ih _ xs w h1]

theorem gather_cons {Task : Type} {o : QueueOps Task (ConcurrentQueue Task)} (ho : Fifo o)
    (V : Nat) (buf : List (Option Task)) (t : Task) (rest : List Task) (w : Nat) :
    SimdWorker.gather o V buf ⟨t :: rest, w⟩
      = if V - 1 ≤ rest.length
        then Gathered.group t ((rest.take (V - 1)).map some) ⟨rest.drop (V - 1), w⟩
        else Gathered.group t [] ⟨rest, w⟩ := by
  unfold SimdWorker.gather
  simp only [ho.pop_cons, ho.length_eq, SimdWorker.clear]
  split
  · next h => rw [fill_of_le ho _ _ _ _ h]; simp
  · rfl

theorem gather_nil {Task : Type} {o : QueueOps Task (ConcurrentQueue Task)}
    (V : Nat) (buf : List (Option Task)) (q : ConcurrentQueue Task)
    (h : o.popFront q = PopResult.null) :
    SimdWorker.gather o V buf q = Gathered.null := by
  simp [SimdWorker.gather, h]

theorem scalar_loop_drain {Task : Type} {o : QueueOps Task (ConcurrentQueue Task)} (ho : Fifo o)
    (execute : Task → CoBatch Task → ConcurrentQueue Task → ExecResult (ConcurrentQueue Task))
    (hex : Quiet execute) (w : Nat) (hnil : o.popFront ⟨[], w⟩ = PopResult.null) :
    ∀ (fuel : Nat) (ts : List Task), ts.length < fuel →
    ScalarWorker.loop o execute fuel ⟨ts, w⟩
      = ⟨ts.map (fun t => (t, CoBatch.Nothing)), ⟨[], w⟩, Exit.returned⟩ := by
  intro fuel
  induction fuel with
  | zero => intro ts h; simp at h
  | succ fuel ih =>
    intro ts h
    cases ts with
    | nil => simp [ScalarWorker.loop, hnil]
    | cons t ts =>
      have h1 : ts.length < fuel := by simpa using h
      obtain ⟨err, he⟩ := hex t CoBatch.Nothing ⟨ts, w⟩
      simp [ScalarWorker.loop, ho.pop_cons, he, ih ts h1]

theorem handed_cons {Task Q : Type} (c : Task × CoBatch Task) (cs : List (Task × CoBatch Task))
    (q : Q) (e : Exit) :
    (WorkerTrace.mk (c :: cs) q e).handed = handedBy c ++ (WorkerTrace.mk cs q e).handed := by
  simp [WorkerTrace.handed]

theorem simd_loop_drain {Task : Type} {o : QueueOps Task (ConcurrentQueue Task)} (ho : Fifo o)
    (V : Nat)
    (execute : Task → CoBatch Task → ConcurrentQueue Task → ExecResult (ConcurrentQueue Task))
    (hex : Quiet execute) (w : Nat) (hnil : o.popFront ⟨[], w⟩ = PopResult.null) :
    ∀ (fuel : Nat) (buf : List (Option Task)) (ts : List Task), ts.length < fuel →
    (SimdWorker.loop o V execute fuel buf ⟨ts, w⟩).exit = Exit.returned
    ∧ (SimdWorker.loop o V execute fuel buf ⟨ts, w⟩).queue = ⟨[], w⟩
    ∧ (SimdWorker.loop o V execute fuel buf ⟨ts, w⟩).handed = ts.map some
    ∧ (SimdWorker.loop o V execute fuel buf ⟨ts, w⟩).calls.length ≤ ts.length := by
  intro fuel
  induction fuel with
  | zero => intro buf ts h; simp at h
  | succ fuel ih =>
    intro buf ts h
    cases ts with
    | nil => simp [SimdWorker.loop, gather_nil V buf _ hnil, WorkerTrace.handed]
    | cons t rest =>
      have h1 : rest.length < fuel := by simpa using h
      by_cases hk : V - 1 ≤ rest.length
      · obtain ⟨err, he⟩ := hex t (CoBatch.tasks ((rest.take (V - 1)).map some))
          ⟨rest.drop (V - 1), w⟩
        have h2 : (rest.drop (V - 1)).length < fuel := by
          rw [List.length_drop]; omega
        obtain ⟨i1, i2, i3, i4⟩ := ih ((rest.take (V - 1)).map some) (rest.drop (V - 1)) h2
        simp only [SimdWorker.loop, gather_cons ho, hk, if_true, he]
        refine ⟨i1, i2, ?_, ?_⟩
        · rw [handed_cons]
          have : (WorkerTrace.mk
              (SimdWorker.loop o V execute fuel ((rest.take (V - 1)).map some)
                ⟨rest.drop (V - 1), w⟩).calls
              (SimdWorker.loop o V execute fuel ((rest.take (V - 1)).map some)
                ⟨rest.drop (V - 1), w⟩).queue
              (SimdWorker.loop o V execute fuel ((rest.take (V - 1)).map some)
                ⟨rest.drop (V - 1), w⟩).exit)
              = SimdWorker.loop o V execute fuel ((rest.take (V - 1)).map some)
                ⟨rest.drop (V - 1), w⟩ := rfl
          rw [this, i3]
          simp only [handedBy, List.map_cons, List.cons_append, ← List.map_append,
            List.take_append_drop]
        · rw [List.length_drop] at i4
          simp only [List.length_cons]
          omega
      · obtain ⟨err, he⟩ := hex t (CoBatch.tasks []) ⟨rest, w⟩
        obtain ⟨i1, i2, i3, i4⟩ := ih [] rest h1
        simp only [SimdWorker.loop, gather_cons ho, hk, if_false, he]
        refine ⟨i1, i2, ?_, ?_⟩
        · rw [handed_cons]
          have : (WorkerTrace.mk
              (SimdWorker.loop o V execute fuel [] ⟨rest, w⟩).calls
              (SimdWorker.loop o V execute fuel [] ⟨rest, w⟩).queue
              (SimdWorker.loop o V execute fuel [] ⟨rest, w⟩).exit)
              = SimdWorker.loop o V execute fuel [] ⟨rest, w⟩ := rfl
          rw [this, i3]
          simp [handedBy]
        · simp only [List.length_cons]
          omega

/-- Whatever `execute` does, every call of a `SimdWorker` loop carries a co-batch
that is empty or has `VECTOR_SIZE - 1` members, none of them `nullptr`. -/
theorem simd_calls_all_or_nothing {Task : Type} {o : QueueOps Task (ConcurrentQueue Task)}
    (ho : Fifo o) (V : Nat)
    (execute : Task → CoBatch Task → ConcurrentQueue Task → ExecResult (ConcurrentQueue Task)) :
    ∀ (fuel : Nat) (buf : List (Option Task)) (q : ConcurrentQueue Task),
    ∀ c ∈ (SimdWorker.loop o V execute fuel buf q).calls,
      ∃ co, c.2 = CoBatch.tasks co ∧ (co = [] ∨ co.length = V - 1) ∧ none ∉ co := by
  intro fuel
  induction fuel with
  | zero => intro buf q c hc; simp [SimdWorker.loop] at hc
  | succ fuel ih =>
    intro buf q c hc
    obtain ⟨items, w⟩ := q
    cases items with
    | nil =>
      have hg : SimdWorker.gather o V buf ⟨[], w⟩ = Gathered.null
          ∨ SimdWorker.gather o V buf ⟨[], w⟩ = Gathered.blocked ⟨[], w⟩ := by
        unfold SimdWorker.gather
        cases hp : o.popFront ⟨[], w⟩ with
        | task t q1 => exact absurd hp (ho.pop_nil w t q1)
        | null => exact Or.inl rfl
        | blocked => exact Or.inr rfl
      rcases hg with hg | hg <;> simp [SimdWorker.loop, hg] at hc
    | cons t rest =>
      have key : ∀ co q2, SimdWorker.gather o V buf ⟨t :: rest, w⟩ = Gathered.group t co q2 →
          (co = [] ∨ co.length = V - 1) → none ∉ co →
          ∃ co, c.2 = CoBatch.tasks co ∧ (co = [] ∨ co.length = V - 1) ∧ none ∉ co := by
        intro co q2 hg h1 h2
        simp only [SimdWorker.loop, hg] at hc
        cases he : execute t (CoBatch.tasks co) q2 with
        | threw q3 =>
          simp only [he, List.mem_singleton] at hc
          exact ⟨co, by rw [hc], h1, h2⟩
        | returned err q3 =>
          simp only [he, List.mem_cons] at hc
          rcases hc with hc | hc
          · exact ⟨co, by rw [hc], h1, h2⟩
          · exact ih co q3 c hc
      by_cases hk : V - 1 ≤ rest.length
      · refine key ((rest.take (V - 1)).map some) ⟨rest.drop (V - 1), w⟩
          (by rw [gather_cons ho, if_pos hk]) (Or.inr ?_) ?_
        · rw [List.length_map, List.length_take]; omega
        · intro hm
          obtain ⟨x, _, hx⟩ := List.mem_map.mp hm
          cases hx
      · exact key [] ⟨rest, w⟩ (by rw [gather_cons ho, if_neg hk]) (Or.inl rfl)
          (List.not_mem_nil none)

/-- The vector a previous iteration left behind has no effect on the loop: it
is cleared before anything is read from it. -/
theorem simd_loop_buffer {Task Q : Type} (o : QueueOps Task Q) (V : Nat)
    (execute : Task → CoBatch Task → Q → ExecResult Q) (fuel : Nat)
    (buf : List (Option Task)) (q : Q) :
    SimdWorker.loop o V execute fuel buf q = SimdWorker.loop o V execute fuel [] q := by
  cases fuel with
  | zero => rfl
  | succ fuel => rfl

/-- One iteration of the `SimdWorker` loop on a queue whose oldest task is `t`,
when `execute` returns: the call made and the loop that follows. -/
theorem simd_loop_returned {Task : Type} {o : QueueOps Task (ConcurrentQueue Task)}
    (V : Nat)
    (execute : Task → CoBatch Task → ConcurrentQueue Task → ExecResult (ConcurrentQueue Task))
    (fuel : Nat) (buf : List (Option Task)) (q : ConcurrentQueue Task) (t : Task)
    (co : List (Option Task)) (q2 q3 : ConcurrentQueue Task) (err : Bool)
    (hg : SimdWorker.gather o V buf q = Gathered.group t co q2)
    (he : execute t (CoBatch.tasks co) q2 = ExecResult.returned err q3) :
    SimdWorker.loop o V execute (fuel + 1) buf q
      = ⟨(t, CoBatch.tasks co) :: (SimdWorker.loop o V execute fuel co q3).calls,
          (SimdWorker.loop o V execute fuel co q3).queue,
          (SimdWorker.loop o V execute fuel co q3).exit⟩ := by
  simp only [SimdWorker.loop, hg, he]

/-- One iteration of the `SimdWorker` loop on a queue whose oldest task is `t`,
when `execute` throws: the call made is the last one. -/
theorem simd_loop_threw {Task : Type} {o : QueueOps Task (ConcurrentQueue Task)}
    (V : Nat)
    (execute : Task → CoBatch Task → ConcurrentQueue Task → ExecResult (ConcurrentQueue Task))
    (fuel : Nat) (buf : List (Option Task)) (q : ConcurrentQueue Task) (t : Task)
    (co : List (Option Task)) (q2 q3 : ConcurrentQueue Task)
    (hg : SimdWorker.gather o V buf q = Gathered.group t co q2)
    (he : execute t (CoBatch.tasks co) q2 = ExecResult.threw q3) :
    SimdWorker.loop o V execute (fuel + 1) buf q
      = ⟨[(t, CoBatch.tasks co)], q3, Exit.threw⟩ := by
  simp only [SimdWorker.loop, hg, he]

/-- The first call of `execute` in an iteration carries the gathered group. -/
theorem simd_loop_head {Task : Type} {o : QueueOps Task (ConcurrentQueue Task)}
    (V : Nat)
    (execute : Task → CoBatch Task → ConcurrentQueue Task → ExecResult (ConcurrentQueue Task))
    (fuel : Nat) (buf : List (Option Task)) (q : ConcurrentQueue Task) (t : Task)
    (co : List (Option Task)) (q2 : ConcurrentQueue Task)
    (hg : SimdWorker.gather o V buf q = Gathered.group t co q2) :
    (SimdWorker.loop o V execute (fuel + 1) buf q).calls.head? = some (t, CoBatch.tasks co) := by
  cases he : execute t (CoBatch.tasks co) q2 with
  | returned err q3 => rw [simd_loop_returned V execute fuel buf q t co q2 q3 err hg he]; rfl
  | threw q3 => rw [simd_loop_threw V execute fuel buf q t co q2 q3 hg he]; rfl

theorem run_of_eq {SeqH SeqV Delegate : Type} (context : Context) (seqBatchH : List SeqH)
    (seqBatchV : List SeqV) (delegate : Delegate) (h : seqBatchH.length = seqBatchV.length) :
    run context seqBatchH seqBatchV delegate
      = ⟨List.replicate context.numParallelWorkers (RunCall.emplaceBack PoolWorker.ScalarWorker)
          ++ [RunCall.waitForWriters context.numParallelWorkers, RunCall.scheduler]
          ++ ((List.zip seqBatchH seqBatchV).map
              (fun tie => (⟨tie.1, tie.2, context, delegate⟩ :
                AICallableRaiiWrapper SeqH SeqV Delegate))).map RunCall.schedule,
          Exit.returned⟩ := by
  simp [run, make_zip, h, List.map_map, Function.comp_def]

theorem run_of_ne {SeqH SeqV Delegate : Type} (context : Context) (seqBatchH : List SeqH)
    (seqBatchV : List SeqV) (delegate : Delegate) (h : seqBatchH.length ≠ seqBatchV.length) :
    run context seqBatchH seqBatchV delegate
      = ⟨List.replicate context.numParallelWorkers (RunCall.emplaceBack PoolWorker.ScalarWorker)
          ++ [RunCall.waitForWriters context.numParallelWorkers, RunCall.scheduler]
          ++ ([] : List (AICallableRaiiWrapper SeqH SeqV Delegate)).map RunCall.schedule,
          Exit.threw⟩ := by
  simp [run, make_zip, h]

theorem callable_pool {SeqH SeqV Delegate : Type} (n : Nat) (pw : PoolWorker) :
    List.filterMap RunCall.callable
      (List.replicate n (RunCall.emplaceBack pw : RunCall SeqH SeqV Delegate)) = [] := by
  induction n with
  | zero => rfl
  | succ n ih => simp [List.replicate_succ, RunCall.callable, ih]

theorem callable_schedules {SeqH SeqV Delegate : Type}
    (xs : List (AICallableRaiiWrapper SeqH SeqV Delegate)) :
    List.filterMap RunCall.callable (xs.map RunCall.schedule) = xs := by
  induction xs with
  | nil => rfl
  | cons x xs ih => simp [RunCall.callable, ih]

theorem worker_pool {SeqH SeqV Delegate : Type} (n : Nat) (pw : PoolWorker) :
    List.filterMap RunCall.worker
      (List.replicate n (RunCall.emplaceBack pw : RunCall SeqH SeqV Delegate))
      = List.replicate n pw := by
  induction n with
  | zero => rfl
  | succ n ih => simp [List.replicate_succ, RunCall.worker, ih]

theorem worker_schedules {SeqH SeqV Delegate : Type}
    (xs : List (AICallableRaiiWrapper SeqH SeqV Delegate)) :
    List.filterMap RunCall.worker (xs.map RunCall.schedule) = [] := by
  induction xs with
  | nil => rfl
  | cons x xs ih => simp [RunCall.worker, ih]

theorem run_scheduled {SeqH SeqV Delegate : Type} (context : Context) (seqBatchH : List SeqH)
    (seqBatchV : List SeqV) (delegate : Delegate) (h : seqBatchH.length = seqBatchV.length) :
    (run context seqBatchH seqBatchV delegate).scheduled
      = (List.zip seqBatchH seqBatchV).map
          (fun tie => (⟨tie.1, tie.2, context, delegate⟩ :
            AICallableRaiiWrapper SeqH SeqV Delegate)) := by
  rw [run_of_eq context seqBatchH seqBatchV delegate h]
  simp only [RunResult.scheduled, List.filterMap_append, callable_pool, callable_schedules]
  simp [RunCall.callable]

theorem run_scheduled_of_ne {SeqH SeqV Delegate : Type} (context : Context)
    (seqBatchH : List SeqH) (seqBatchV : List SeqV) (delegate : Delegate)
    (h : seqBatchH.length ≠ seqBatchV.length) :
    (run context seqBatchH seqBatchV delegate).scheduled = [] := by
  rw [run_of_ne context seqBatchH seqBatchV delegate h]
  simp only [RunResult.scheduled, List.filterMap_append, callable_pool, callable_schedules]
  simp [RunCall.callable]

theorem run_poolWorkers {SeqH SeqV Delegate : Type} (context : Context) (seqBatchH : List SeqH)
    (seqBatchV : List SeqV) (delegate : Delegate) :
    (run context seqBatchH seqBatchV delegate).poolWorkers
      = List.replicate context.numParallelWorkers PoolWorker.ScalarWorker := by
  by_cases h : seqBatchH.length = seqBatchV.length
  · rw [run_of_eq context seqBatchH seqBatchV delegate h]
    simp only [RunResult.poolWorkers, List.filterMap_append, worker_pool, worker_schedules]
    simp [RunCall.worker]
  · rw [run_of_ne context seqBatchH seqBatchV delegate h]
    simp only [RunResult.poolWorkers, List.filterMap_append, worker_pool, worker_schedules]
    simp [RunCall.worker]

theorem finalQueue_cons {SeqH SeqV Delegate : Type}
    {q : ConcurrentQueue (AICallableRaiiWrapper SeqH SeqV Delegate)}
    {c : RunCall SeqH SeqV Delegate} {cs : List (RunCall SeqH SeqV Delegate)}
    (q1 : ConcurrentQueue (AICallableRaiiWrapper SeqH SeqV Delegate))
    (h : applyCall q c = some q1) : finalQueue q (c :: cs) = finalQueue q1 cs := by
  simp [finalQueue, h]

/-- A list of `schedule` calls leaves the writer count as it is. -/
theorem finalQueue_schedules {SeqH SeqV Delegate : Type}
    (xs : List (AICallableRaiiWrapper SeqH SeqV Delegate)) :
    ∀ q : ConcurrentQueue (AICallableRaiiWrapper SeqH SeqV Delegate),
    (finalQueue q (xs.map RunCall.schedule)).writerCount = q.writerCount := by
  induction xs with
  | nil => intro q; rfl
  | cons x xs ih =>
    intro q
    have ha : applyCall q (RunCall.schedule x) = some (q.appendValue x) := rfl
    rw [List.map_cons, finalQueue_cons _ ha, ih]
    rfl

/-- The calls of `run`, made on a queue with `w` writers: the `n` started workers
are the writers the queue is left with. -/
theorem finalQueue_run {SeqH SeqV Delegate : Type}
    (xs : List (AICallableRaiiWrapper SeqH SeqV Delegate)) (pw : PoolWorker) (m : Nat) :
    ∀ (n : Nat) (q : ConcurrentQueue (AICallableRaiiWrapper SeqH SeqV Delegate)),
    m ≤ q.writerCount + n →
    (finalQueue q (List.replicate n (RunCall.emplaceBack pw)
        ++ [RunCall.waitForWriters m, RunCall.scheduler] ++ xs.map RunCall.schedule)).writerCount
      = q.writerCount + n := by
  intro n
  induction n with
  | zero =>
    intro q hm
    have hm1 : m ≤ q.writerCount := by simpa using hm
    have ha : applyCall q (RunCall.waitForWriters m : RunCall SeqH SeqV Delegate) = some q := by
      simp [applyCall, hm1]
    have hb : applyCall q (RunCall.scheduler : RunCall SeqH SeqV Delegate) = some q := rfl
    have e : List.replicate 0 (RunCall.emplaceBack pw)
        ++ [RunCall.waitForWriters m, RunCall.scheduler] ++ xs.map RunCall.schedule
        = RunCall.waitForWriters m :: RunCall.scheduler :: xs.map RunCall.schedule := rfl
    rw [e, finalQueue_cons _ ha, finalQueue_cons _ hb, finalQueue_schedules]
    rfl
  | succ n ih =>
    intro q hm
    have hw : (ConcurrentQueue.ops.lockWriting q).writerCount = q.writerCount + 1 := rfl
    have hm1 : m ≤ (ConcurrentQueue.ops.lockWriting q).writerCount + n := by
      rw [hw]; omega
    have ha : applyCall q (RunCall.emplaceBack pw : RunCall SeqH SeqV Delegate)
        = some (ConcurrentQueue.ops.lockWriting q) := rfl
    have e : List.replicate (n + 1) (RunCall.emplaceBack pw)
        ++ [RunCall.waitForWriters m, RunCall.scheduler] ++ xs.map RunCall.schedule
        = RunCall.emplaceBack pw :: (List.replicate n (RunCall.emplaceBack pw)
        ++ [RunCall.waitForWriters m, RunCall.scheduler] ++ xs.map RunCall.schedule) := rfl
    rw [e, finalQueue_cons _ ha, ih _ hm1, hw]
    omega

/-- When `run` has made its last call, the workers it started are the registered
writers of the queue, whatever the batch. -/
theorem afterBatch_writerCount {SeqH SeqV Delegate : Type} (context : Context)
    (seqBatchH : List SeqH) (seqBatchV : List SeqV) (delegate : Delegate) :
    (afterBatch context seqBatchH seqBatchV delegate).writerCount
      = context.numParallelWorkers := by
  unfold afterBatch
  by_cases h : seqBatchH.length = seqBatchV.length
  · rw [run_of_eq context seqBatchH seqBatchV delegate h]
    show (finalQueue _ _).writerCount = _
    rw [finalQueue_run _ PoolWorker.ScalarWorker context.numParallelWorkers
      context.numParallelWorkers ⟨[], 0⟩ (by simp)]
    exact Nat.zero_add _
  · rw [run_of_ne context seqBatchH seqBatchV delegate h]
    show (finalQueue _ _).writerCount = _
    rw [finalQueue_run _ PoolWorker.ScalarWorker context.numParallelWorkers
      context.numParallelWorkers ⟨[], 0⟩ (by simp)]
    exact Nat.zero_add _

/-! ## Helper lemmas for the claims -/

theorem scalar_handed {Task : Type} (ts : List Task) (q : ConcurrentQueue Task) (e : Exit) :
    (WorkerTrace.mk (ts.map (fun t => (t, (CoBatch.Nothing : CoBatch Task)))) q e).handed
      = ts.map some := by
  induction ts with
  | nil => rfl
  | cons t ts ih =>
    simp only [List.map_cons]
    rw [handed_cons, ih]
    rfl

/-- C1: `ScalarWorker`, run alone on a closed queue holding the tasks `ts`
(`popFront` returns the oldest task, and the null sentinel once the queue is
empty), calls `execute` exactly once on each task of `ts`, in FIFO order, each
time with `Nothing` as co-batch, and returns at the first sentinel without
executing anything for it.  The tasks push no follow-up task (`Quiet`); any fuel
above the number of tasks is enough. -/
theorem ScalarWorker_executes_fifo {Task : Type}
    (execute : Task → CoBatch Task → ConcurrentQueue Task → ExecResult (ConcurrentQueue Task))
    (hex : Quiet execute) (ts : List Task) (w fuel : Nat) (hfuel : ts.length < fuel) :
    ScalarWorker ConcurrentQueue.closedOps execute fuel ⟨ts, w⟩
      = ⟨ts.map (fun t => (t, CoBatch.Nothing)), ⟨[], w + 1⟩, Exit.returned⟩ :=
  scalar_loop_drain fifo_closedOps execute hex (w + 1) rfl fuel ts hfuel

theorem ScalarWorker_executes_fifo_witness :
    Quiet quietExecute ∧ [7, 8, 9].length < 4 ∧
    ScalarWorker ConcurrentQueue.closedOps quietExecute 4 ⟨[7, 8, 9], 0⟩
      = ⟨[(7, CoBatch.Nothing), (8, CoBatch.Nothing), (9, CoBatch.Nothing)], ⟨[], 1⟩,
          Exit.returned⟩ :=
  ⟨quietExecute_quiet, by decide,
    ScalarWorker_executes_fifo quietExecute quietExecute_quiet [7, 8, 9] 0 4 (by decide)⟩

/-- C2, as stated, fails: with `VECTOR_SIZE = 3` and one task left in the queue
after the first pop, the co-batch is empty and not the `min 1 2 = 1` oldest
task, and the worker executes a group of one task. -/
theorem SimdWorker_small_group_refuted :
    SimdWorker.gather ConcurrentQueue.ops 3 [] ⟨[1, 2], 0⟩ = Gathered.group 1 [] ⟨[2], 0⟩
    ∧ SimdWorker.gather ConcurrentQueue.ops 3 [] ⟨[1, 2], 0⟩
        ≠ Gathered.group 1 (([2].take (min [2].length (3 - 1))).map some)
            ⟨[2].drop (min [2].length (3 - 1)), 0⟩
    ∧ (SimdWorker ConcurrentQueue.closedOps 3 quietExecute 3 ⟨[1, 2], 0⟩).calls
        = [(1, CoBatch.tasks []), (2, CoBatch.tasks [])] := by
  decide

/-- C2, amended: in every iteration of `SimdWorker`, if `k = rest.length` tasks
are still present in the queue after the first task `t` has been popped, the
co-batch gathered under the lock and passed to `execute` consists of the
`VECTOR_SIZE - 1` oldest of them when `k >= VECTOR_SIZE - 1` and is empty when
`k < VECTOR_SIZE - 1`; in particular whenever `k >= VECTOR_SIZE - 1` and
`VECTOR_SIZE >= 2` the worker executes a group of exactly `VECTOR_SIZE` tasks.
The call recorded first by the loop started on that queue is the call of this
iteration, whatever `execute` does and whatever the buffer holds. -/
theorem SimdWorker_gathers_full_group_or_none {Task : Type}
    (o : QueueOps Task (ConcurrentQueue Task)) (ho : Fifo o) (VECTOR_SIZE : Nat)
    (hV : 1 ≤ VECTOR_SIZE) (buf : List (Option Task)) (t : Task) (rest : List Task) (w : Nat)
    (execute : Task → CoBatch Task → ConcurrentQueue Task → ExecResult (ConcurrentQueue Task))
    (fuel : Nat) :
    (VECTOR_SIZE - 1 ≤ rest.length →
      SimdWorker.gather o VECTOR_SIZE buf ⟨t :: rest, w⟩
        = Gathered.group t ((rest.take (VECTOR_SIZE - 1)).map some)
            ⟨rest.drop (VECTOR_SIZE - 1), w⟩
      ∧ (SimdWorker.loop o VECTOR_SIZE execute (fuel + 1) buf ⟨t :: rest, w⟩).calls.head?
          = some (t, CoBatch.tasks ((rest.take (VECTOR_SIZE - 1)).map some))
      ∧ ((SimdWorker.loop o VECTOR_SIZE execute (fuel + 1) buf ⟨t :: rest, w⟩).calls.head?.map
            (fun c => (handedBy c).length)) = some VECTOR_SIZE)
    ∧ (rest.length < VECTOR_SIZE - 1 →
      SimdWorker.gather o VECTOR_SIZE buf ⟨t :: rest, w⟩ = Gathered.group t [] ⟨rest, w⟩
      ∧ (SimdWorker.loop o VECTOR_SIZE execute (fuel + 1) buf ⟨t :: rest, w⟩).calls.head?
          = some (t, CoBatch.tasks [])
      ∧ ((SimdWorker.loop o VECTOR_SIZE execute (fuel + 1) buf ⟨t :: rest, w⟩).calls.head?.map
            (fun c => (handedBy c).length)) = some 1) := by
  refine ⟨fun h => ?_, fun h => ?_⟩
  · have hg : SimdWorker.gather o VECTOR_SIZE buf ⟨t :: rest, w⟩
        = Gathered.group t ((rest.take (VECTOR_SIZE - 1)).map some)
            ⟨rest.drop (VECTOR_SIZE - 1), w⟩ := by
      rw [gather_cons ho, if_pos h]
    have hh := simd_loop_head VECTOR_SIZE execute fuel buf _ t _ _ hg
    refine ⟨hg, hh, ?_⟩
    rw [hh]
    simp only [Option.map_some', handedBy, List.length_cons, List.length_map, List.length_take]
    congr 1
    omega
  · have hg : SimdWorker.gather o VECTOR_SIZE buf ⟨t :: rest, w⟩
        = Gathered.group t [] ⟨rest, w⟩ := by
      rw [gather_cons ho, if_neg (by omega)]
    have hh := simd_loop_head VECTOR_SIZE execute fuel buf _ t _ _ hg
    refine ⟨hg, hh, ?_⟩
    rw [hh]
    rfl

theorem SimdWorker_gathers_full_group_or_none_witness :
    Fifo (ConcurrentQueue.ops : QueueOps Nat (ConcurrentQueue Nat)) ∧ 1 ≤ 3 ∧
    ((3 - 1 ≤ [2, 3, 4].length →
      SimdWorker.gather ConcurrentQueue.ops 3 [some 0] ⟨1 :: [2, 3, 4], 0⟩
        = Gathered.group 1 (([2, 3, 4].take (3 - 1)).map some) ⟨[2, 3, 4].drop (3 - 1), 0⟩
      ∧ (SimdWorker.loop ConcurrentQueue.ops 3 quietExecute (5 + 1) [some 0]
            ⟨1 :: [2, 3, 4], 0⟩).calls.head?
          = some (1, CoBatch.tasks (([2, 3, 4].take (3 - 1)).map some))
      ∧ ((SimdWorker.loop ConcurrentQueue.ops 3 quietExecute (5 + 1) [some 0]
            ⟨1 :: [2, 3, 4], 0⟩).calls.head?.map (fun c => (handedBy c).length)) = some 3)
    ∧ ([2, 3, 4].length < 3 - 1 →
      SimdWorker.gather ConcurrentQueue.ops 3 [some 0] ⟨1 :: [2, 3, 4], 0⟩
        = Gathered.group 1 [] ⟨[2, 3, 4], 0⟩
      ∧ (SimdWorker.loop ConcurrentQueue.ops 3 quietExecute (5 + 1) [some 0]
            ⟨1 :: [2, 3, 4], 0⟩).calls.head?
          = some (1, CoBatch.tasks [])
      ∧ ((SimdWorker.loop ConcurrentQueue.ops 3 quietExecute (5 + 1) [some 0]
            ⟨1 :: [2, 3, 4], 0⟩).calls.head?.map (fun c => (handedBy c).length)) = some 1)) :=
  ⟨fifo_ops, by decide,
    SimdWorker_gathers_full_group_or_none ConcurrentQueue.ops fifo_ops 3 (by decide) [some 0] 1
      [2, 3, 4] 0 quietExecute 5⟩

/-- C3: for every closed queue holding the tasks `ts` and every
`VECTOR_SIZE >= 1`, a single `SimdWorker` returns, and the tasks it hands to
`execute` (each iteration's primary task together with its co-batch members,
over all iterations) are exactly `ts`, each occurrence once and in queue order;
this is the list, hence the multiset, of tasks `ScalarWorker` executes on the
same queue; the queue is left empty.  The tasks push no follow-up task. -/
theorem SimdWorker_hands_each_task_once {Task : Type}
    (execute : Task → CoBatch Task → ConcurrentQueue Task → ExecResult (ConcurrentQueue Task))
    (hex : Quiet execute) (VECTOR_SIZE : Nat) (_hV : 1 ≤ VECTOR_SIZE) (ts : List Task)
    (w fuel : Nat) (hfuel : ts.length < fuel) :
    (SimdWorker ConcurrentQueue.closedOps VECTOR_SIZE execute fuel ⟨ts, w⟩).exit = Exit.returned
    ∧ (SimdWorker ConcurrentQueue.closedOps VECTOR_SIZE execute fuel ⟨ts, w⟩).handed = ts.map some
    ∧ (SimdWorker ConcurrentQueue.closedOps VECTOR_SIZE execute fuel ⟨ts, w⟩).queue.items = []
    ∧ (ScalarWorker ConcurrentQueue.closedOps execute fuel ⟨ts, w⟩).handed = ts.map some
    ∧ Multiset.ofList
        (SimdWorker ConcurrentQueue.closedOps VECTOR_SIZE execute fuel ⟨ts, w⟩).handed
      = Multiset.ofList (ScalarWorker ConcurrentQueue.closedOps execute fuel ⟨ts, w⟩).handed := by
  obtain ⟨i1, i2, i3, _⟩ :=
    simd_loop_drain fifo_closedOps VECTOR_SIZE execute hex (w + 1) rfl fuel [] ts hfuel
  have hs : (ScalarWorker ConcurrentQueue.closedOps execute fuel ⟨ts, w⟩).handed = ts.map some := by
    have := scalar_loop_drain fifo_closedOps execute hex (w + 1) rfl fuel ts hfuel
    unfold ScalarWorker
    show (ScalarWorker.loop ConcurrentQueue.closedOps execute fuel ⟨ts, w + 1⟩).handed = _
    rw [this, scalar_handed]
  have hv : (SimdWorker ConcurrentQueue.closedOps VECTOR_SIZE execute fuel ⟨ts, w⟩).handed
      = ts.map some := i3
  refine ⟨i1, hv, ?_, hs, ?_⟩
  · show (SimdWorker.loop ConcurrentQueue.closedOps VECTOR_SIZE execute fuel [] ⟨ts, w + 1⟩).queue.items
      = []
    rw [i2]
  · rw [hv, hs]

theorem SimdWorker_hands_each_task_once_witness :
    Quiet quietExecute ∧ 1 ≤ 3 ∧ [1, 2, 3, 4, 5].length < 6 ∧
    ((SimdWorker ConcurrentQueue.closedOps 3 quietExecute 6 ⟨[1, 2, 3, 4, 5], 0⟩).exit
        = Exit.returned
    ∧ (SimdWorker ConcurrentQueue.closedOps 3 quietExecute 6 ⟨[1, 2, 3, 4, 5], 0⟩).handed
        = [1, 2, 3, 4, 5].map some
    ∧ (SimdWorker ConcurrentQueue.closedOps 3 quietExecute 6 ⟨[1, 2, 3, 4, 5], 0⟩).queue.items = []
    ∧ (ScalarWorker ConcurrentQueue.closedOps quietExecute 6 ⟨[1, 2, 3, 4, 5], 0⟩).handed
        = [1, 2, 3, 4, 5].map some
    ∧ Multiset.ofList
        (SimdWorker ConcurrentQueue.closedOps 3 quietExecute 6 ⟨[1, 2, 3, 4, 5], 0⟩).handed
      = Multiset.ofList
        (ScalarWorker ConcurrentQueue.closedOps quietExecute 6 ⟨[1, 2, 3, 4, 5], 0⟩).handed) :=
  ⟨quietExecute_quiet, by decide, by decide,
    SimdWorker_hands_each_task_once quietExecute quietExecute_quiet 3 (by decide)
      [1, 2, 3, 4, 5] 0 6 (by decide)⟩

/-- C5: `run` called with two sequence batches of different lengths reports an
error to its caller and makes no call of `schedule` at all: the precondition
violation raised when the batches are zipped (line 182) meets no handler in `run`
and leaves it before the scheduling loop (lines 184-191). -/
theorem run_rejects_mismatched {SeqH SeqV Delegate : Type} (context : Context)
    (seqBatchH : List SeqH) (seqBatchV : List SeqV) (delegate : Delegate)
    (h : seqBatchH.length ≠ seqBatchV.length) :
    (run context seqBatchH seqBatchV delegate).exit = Exit.threw
    ∧ (run context seqBatchH seqBatchV delegate).scheduled = [] := by
  refine ⟨?_, run_scheduled_of_ne context seqBatchH seqBatchV delegate h⟩
  rw [run_of_ne context seqBatchH seqBatchV delegate h]

theorem run_rejects_mismatched_witness :
    [1, 2].length ≠ [10].length
    ∧ (run ⟨1, false⟩ [1, 2] [10] 0).exit = Exit.threw
    ∧ (run ⟨1, false⟩ [1, 2] [10] 0).scheduled = [] :=
  ⟨by decide, run_rejects_mismatched ⟨1, false⟩ [1, 2] [10] 0 (by decide)⟩

/-- C6: for sequence batches `seqBatchH` and `seqBatchV` of equal length `n`,
`run` returns and has called `schedule` exactly `n` times, the `i`-th call
carrying the request built from `seqBatchH[i]`, `seqBatchV[i]`, the
configuration and the caller's delegate, in batch order; for `n = 0` it makes no
`schedule` call.  `run` itself never calls the delegate. -/
theorem run_schedules_each_pair {SeqH SeqV Delegate : Type} (context : Context)
    (seqBatchH : List SeqH) (seqBatchV : List SeqV) (delegate : Delegate) (n : Nat)
    (hH : seqBatchH.length = n) (hV : seqBatchV.length = n) :
    (run context seqBatchH seqBatchV delegate).exit = Exit.returned
    ∧ (run context seqBatchH seqBatchV delegate).scheduled.length = n
    ∧ (∀ (i : Nat) (h : SeqH) (v : SeqV), seqBatchH[i]? = some h → seqBatchV[i]? = some v →
        (run context seqBatchH seqBatchV delegate).scheduled[i]?
          = some (AICallableRaiiWrapper.mk h v context delegate))
    ∧ (n = 0 → (run context seqBatchH seqBatchV delegate).scheduled = []) := by
  have hlen : seqBatchH.length = seqBatchV.length := hH.trans hV.symm
  have hs := run_scheduled context seqBatchH seqBatchV delegate hlen
  refine ⟨?_, ?_, ?_, ?_⟩
  · rw [run_of_eq context seqBatchH seqBatchV delegate hlen]
  · rw [hs, List.length_map, List.length_zip, hH, hV, Nat.min_self]
  · intro i h v h1 h2
    have hz : (List.zip seqBatchH seqBatchV)[i]? = some (h, v) :=
      List.getElem?_zip_eq_some.mpr ⟨h1, h2⟩
    rw [hs, List.getElem?_map, hz]
    rfl
  · intro h0
    have : seqBatchH = [] := List.length_eq_zero.mp (hH.trans h0)
    rw [hs, this]
    rfl

theorem run_schedules_each_pair_witness :
    [1, 2, 3].length = 3 ∧ [10, 20, 30].length = 3 ∧
    ((run ⟨2, false⟩ [1, 2, 3] [10, 20, 30] 0).exit = Exit.returned
    ∧ (run ⟨2, false⟩ [1, 2, 3] [10, 20, 30] 0).scheduled.length = 3
    ∧ (∀ (i h v : Nat), [1, 2, 3][i]? = some h → [10, 20, 30][i]? = some v →
        (run ⟨2, false⟩ [1, 2, 3] [10, 20, 30] 0).scheduled[i]?
          = some (AICallableRaiiWrapper.mk h v ⟨2, false⟩ 0))
    ∧ (3 = 0 → (run ⟨2, false⟩ [1, 2, 3] [10, 20, 30] 0).scheduled = [])) :=
  ⟨rfl, rfl, run_schedules_each_pair ⟨2, false⟩ [1, 2, 3] [10, 20, 30] 0 3 rfl rfl⟩

/-- C7: the code at the failing input.  With a vector execution policy and two
pool workers the configuration selects `SimdWorker`, and `run` puts two
`ScalarWorker`s into the pool. -/
theorem run_pool_ignores_policy :
    selectedWorker ⟨2, true⟩ = PoolWorker.SimdWorker
    ∧ (run ⟨2, true⟩ [1, 2, 3] [10, 20, 30] 0).poolWorkers
        = [PoolWorker.ScalarWorker, PoolWorker.ScalarWorker] := by
  decide

/-- C8: the code at the failing input, two pool workers and a batch of one pair.
A worker run on the empty queue without writers registers itself as a writer and
then blocks in `popFront` instead of returning; while `run` pushes the request
two writers, the two workers, are registered and the scheduler is not among
them; two writers, not zero, are still registered when `run` has pushed the last
request, so that a pop on the drained queue blocks and does not yield the
sentinel.  For every context and batch the writers left are the
`numParallelWorkers(context)` workers, and with one worker or more the pop on
the drained queue blocks. -/
theorem run_leaves_workers_registered :
    ScalarWorker ConcurrentQueue.ops quietExecute 1 ⟨[], 0⟩ = ⟨[], ⟨[], 1⟩, Exit.blocked⟩
    ∧ (replay ⟨[], 0⟩ (run ⟨2, false⟩ [1] [10] 0).calls).map (fun p => p.2.writerCount)
        = [1, 2, 2, 2, 2]
    ∧ (afterBatch ⟨2, false⟩ [1] [10] 0).writerCount = 2
    ∧ (afterBatch ⟨2, false⟩ [1] [10] 0).drained.popFront = PopResult.blocked
    ∧ (∀ (context : Context) (seqBatchH seqBatchV : List Nat) (delegate : Nat),
        (afterBatch context seqBatchH seqBatchV delegate).writerCount
          = context.numParallelWorkers
        ∧ (1 ≤ context.numParallelWorkers →
          (afterBatch context seqBatchH seqBatchV delegate).drained.popFront
            = PopResult.blocked)) := by
  refine ⟨by decide, by decide, by decide, by decide, ?_⟩
  intro context seqBatchH seqBatchV delegate
  have hw := afterBatch_writerCount context seqBatchH seqBatchV delegate
  refine ⟨hw, fun h1 => ?_⟩
  have hne : (afterBatch context seqBatchH seqBatchV delegate).writerCount ≠ 0 := by
    rw [hw]; omega
  simp [ConcurrentQueue.drained, ConcurrentQueue.popFront, hne]

/-- C9: on a queue with zero registered producers and the pending tasks `ts`,
whose tasks push no follow-up task, both worker loops return: the loop of
`ScalarWorker` after exactly `ts.length` executions, the loop of `SimdWorker`
after at most `ts.length` executing iterations, each of which strictly shrinks
the queue; on the empty queue each loop returns on its first pop without
executing anything.  Any fuel above `ts.length` is enough. -/
theorem worker_loops_terminate {Task : Type}
    (execute : Task → CoBatch Task → ConcurrentQueue Task → ExecResult (ConcurrentQueue Task))
    (hex : Quiet execute) (VECTOR_SIZE : Nat) (_hV : 1 ≤ VECTOR_SIZE) (ts : List Task)
    (buf : List (Option Task)) (fuel : Nat) (hfuel : ts.length < fuel) :
    ScalarWorker.loop ConcurrentQueue.ops execute fuel ⟨ts, 0⟩
      = ⟨ts.map (fun t => (t, CoBatch.Nothing)), ⟨[], 0⟩, Exit.returned⟩
    ∧ (ScalarWorker.loop ConcurrentQueue.ops execute fuel ⟨ts, 0⟩).calls.length = ts.length
    ∧ (SimdWorker.loop ConcurrentQueue.ops VECTOR_SIZE execute fuel buf ⟨ts, 0⟩).exit
        = Exit.returned
    ∧ (SimdWorker.loop ConcurrentQueue.ops VECTOR_SIZE execute fuel buf ⟨ts, 0⟩).calls.length
        ≤ ts.length
    ∧ (∀ t rest, ∃ co q2,
        SimdWorker.gather ConcurrentQueue.ops VECTOR_SIZE buf ⟨t :: rest, 0⟩
          = Gathered.group t co q2
        ∧ q2.items.length < (t :: rest).length)
    ∧ ScalarWorker.loop ConcurrentQueue.ops execute 1 ⟨[], 0⟩ = ⟨[], ⟨[], 0⟩, Exit.returned⟩
    ∧ SimdWorker.loop ConcurrentQueue.ops VECTOR_SIZE execute 1 buf ⟨[], 0⟩
        = ⟨[], ⟨[], 0⟩, Exit.returned⟩ := by
  have hs := scalar_loop_drain fifo_ops execute hex 0 rfl fuel ts hfuel
  obtain ⟨i1, _, _, i4⟩ := simd_loop_drain fifo_ops VECTOR_SIZE execute hex 0 rfl fuel buf ts hfuel
  refine ⟨hs, ?_, i1, i4, ?_, ?_, ?_⟩
  · rw [hs]; simp
  · intro t rest
    rw [gather_cons fifo_ops]
    by_cases h : VECTOR_SIZE - 1 ≤ rest.length
    · exact ⟨_, _, if_pos h, by simp only [List.length_drop, List.length_cons]; omega⟩
    · exact ⟨_, _, if_neg h, by simp⟩
  · rfl
  · simp [SimdWorker.loop, SimdWorker.gather, ConcurrentQueue.ops, ConcurrentQueue.popFront]

theorem worker_loops_terminate_witness :
    Quiet quietExecute ∧ 1 ≤ 2 ∧ [1, 2, 3].length < 4 ∧
    (ScalarWorker.loop ConcurrentQueue.ops quietExecute 4 ⟨[1, 2, 3], 0⟩
      = ⟨[1, 2, 3].map (fun t => (t, CoBatch.Nothing)), ⟨[], 0⟩, Exit.returned⟩
    ∧ (ScalarWorker.loop ConcurrentQueue.ops quietExecute 4 ⟨[1, 2, 3], 0⟩).calls.length
        = [1, 2, 3].length
    ∧ (SimdWorker.loop ConcurrentQueue.ops 2 quietExecute 4 [] ⟨[1, 2, 3], 0⟩).exit
        = Exit.returned
    ∧ (SimdWorker.loop ConcurrentQueue.ops 2 quietExecute 4 [] ⟨[1, 2, 3], 0⟩).calls.length
        ≤ [1, 2, 3].length
    ∧ (∀ (t : Nat) (rest : List Nat), ∃ co q2,
        SimdWorker.gather ConcurrentQueue.ops 2 [] ⟨t :: rest, 0⟩ = Gathered.group t co q2
        ∧ q2.items.length < (t :: rest).length)
    ∧ ScalarWorker.loop ConcurrentQueue.ops quietExecute 1 ⟨[], 0⟩
        = ⟨[], ⟨[], 0⟩, Exit.returned⟩
    ∧ SimdWorker.loop ConcurrentQueue.ops 2 quietExecute 1 [] ⟨[], 0⟩
        = ⟨[], ⟨[], 0⟩, Exit.returned⟩) :=
  ⟨quietExecute_quiet, by decide, by decide,
    worker_loops_terminate quietExecute quietExecute_quiet 2 (by decide) [1, 2, 3] [] 4
      (by decide)⟩

/-- C10: in every iteration of `SimdWorker` the co-batch `co` passed to
`execute` is all-or-nothing: with `rest` the tasks that remain after the first
pop, `co` is empty when fewer than `VECTOR_SIZE - 1` remain and otherwise holds
exactly `VECTOR_SIZE - 1` tasks, so the executed group has size 1 or exactly
`VECTOR_SIZE`; `co` consists of the oldest tasks of `rest`, hence never contains
the null sentinel; it does not depend on what a previous iteration left in the
buffer; and for `VECTOR_SIZE = 1` it is empty.  This `co` is what the loop hands
to `execute`: the loop started on that queue calls `execute` on `t` with `co`
first, stops there if `execute` throws, and otherwise goes on with the queue
`execute` leaves.  Over a whole run, whatever `execute` does, every call carries
a co-batch that is empty or has exactly `VECTOR_SIZE - 1` members, none of them
null. -/
theorem SimdWorker_cobatch_all_or_nothing {Task : Type}
    (o : QueueOps Task (ConcurrentQueue Task)) (ho : Fifo o) (VECTOR_SIZE : Nat)
    (hV : 1 ≤ VECTOR_SIZE) (buf : List (Option Task)) (t : Task) (rest : List Task) (w : Nat) :
    ∃ co q2, SimdWorker.gather o VECTOR_SIZE buf ⟨t :: rest, w⟩ = Gathered.group t co q2
      ∧ (rest.length < VECTOR_SIZE - 1 → co = [])
      ∧ (VECTOR_SIZE - 1 ≤ rest.length → co.length = VECTOR_SIZE - 1)
      ∧ ((handedBy (t, CoBatch.tasks co)).length = 1
          ∨ (handedBy (t, CoBatch.tasks co)).length = VECTOR_SIZE)
      ∧ none ∉ co
      ∧ co = (rest.take co.length).map some
      ∧ SimdWorker.gather o VECTOR_SIZE buf ⟨t :: rest, w⟩
          = SimdWorker.gather o VECTOR_SIZE [] ⟨t :: rest, w⟩
      ∧ (VECTOR_SIZE = 1 → co = [])
      ∧ (∀ (execute : Task → CoBatch Task → ConcurrentQueue Task →
            ExecResult (ConcurrentQueue Task)) (fuel : Nat),
          (SimdWorker.loop o VECTOR_SIZE execute (fuel + 1) buf ⟨t :: rest, w⟩).calls.head?
            = some (t, CoBatch.tasks co)
          ∧ (∀ err q3, execute t (CoBatch.tasks co) q2 = ExecResult.returned err q3 →
              SimdWorker.loop o VECTOR_SIZE execute (fuel + 1) buf ⟨t :: rest, w⟩
                = ⟨(t, CoBatch.tasks co)
                    :: (SimdWorker.loop o VECTOR_SIZE execute fuel co q3).calls,
                  (SimdWorker.loop o VECTOR_SIZE execute fuel co q3).queue,
                  (SimdWorker.loop o VECTOR_SIZE execute fuel co q3).exit⟩)
          ∧ (∀ q3, execute t (CoBatch.tasks co) q2 = ExecResult.threw q3 →
              SimdWorker.loop o VECTOR_SIZE execute (fuel + 1) buf ⟨t :: rest, w⟩
                = ⟨[(t, CoBatch.tasks co)], q3, Exit.threw⟩)
          ∧ (∀ q, SimdWorker.loop o VECTOR_SIZE execute fuel buf q
                = SimdWorker.loop o VECTOR_SIZE execute fuel [] q))
      ∧ (∀ (execute : Task → CoBatch Task → ConcurrentQueue Task →
            ExecResult (ConcurrentQueue Task)) (fuel : Nat) (q : ConcurrentQueue Task),
          ∀ c ∈ (SimdWorker o VECTOR_SIZE execute fuel q).calls,
            ∃ group, c.2 = CoBatch.tasks group
              ∧ (group = [] ∨ group.length = VECTOR_SIZE - 1) ∧ none ∉ group) := by
  have hrun : ∀ (execute : Task → CoBatch Task → ConcurrentQueue Task →
      ExecResult (ConcurrentQueue Task)) (fuel : Nat) (q : ConcurrentQueue Task),
      ∀ c ∈ (SimdWorker o VECTOR_SIZE execute fuel q).calls,
        ∃ group, c.2 = CoBatch.tasks group
          ∧ (group = [] ∨ group.length = VECTOR_SIZE - 1) ∧ none ∉ group :=
    fun execute fuel q => simd_calls_all_or_nothing ho VECTOR_SIZE execute fuel [] _
  have hbuf : SimdWorker.gather o VECTOR_SIZE buf ⟨t :: rest, w⟩
      = SimdWorker.gather o VECTOR_SIZE [] ⟨t :: rest, w⟩ := by
    rw [gather_cons ho, gather_cons ho]
  have hiter : ∀ (co : List (Option Task)) (q2 : ConcurrentQueue Task),
      SimdWorker.gather o VECTOR_SIZE buf ⟨t :: rest, w⟩ = Gathered.group t co q2 →
      ∀ (execute : Task → CoBatch Task → ConcurrentQueue Task →
        ExecResult (ConcurrentQueue Task)) (fuel : Nat),
      (SimdWorker.loop o VECTOR_SIZE execute (fuel + 1) buf ⟨t :: rest, w⟩).calls.head?
        = some (t, CoBatch.tasks co)
      ∧ (∀ err q3, execute t (CoBatch.tasks co) q2 = ExecResult.returned err q3 →
          SimdWorker.loop o VECTOR_SIZE execute (fuel + 1) buf ⟨t :: rest, w⟩
            = ⟨(t, CoBatch.tasks co)
                :: (SimdWorker.loop o VECTOR_SIZE execute fuel co q3).calls,
              (SimdWorker.loop o VECTOR_SIZE execute fuel co q3).queue,
              (SimdWorker.loop o VECTOR_SIZE execute fuel co q3).exit⟩)
      ∧ (∀ q3, execute t (CoBatch.tasks co) q2 = ExecResult.threw q3 →
          SimdWorker.loop o VECTOR_SIZE execute (fuel + 1) buf ⟨t :: rest, w⟩
            = ⟨[(t, CoBatch.tasks co)], q3, Exit.threw⟩)
      ∧ (∀ q, SimdWorker.loop o VECTOR_SIZE execute fuel buf q
            = SimdWorker.loop o VECTOR_SIZE execute fuel [] q) :=
    fun co q2 hg execute fuel =>
      ⟨simd_loop_head VECTOR_SIZE execute fuel buf _ t co q2 hg,
        fun err q3 he => simd_loop_returned VECTOR_SIZE execute fuel buf _ t co q2 q3 err hg he,
        fun q3 he => simd_loop_threw VECTOR_SIZE execute fuel buf _ t co q2 q3 hg he,
        fun q => simd_loop_buffer o VECTOR_SIZE execute fuel buf q⟩
  by_cases h : VECTOR_SIZE - 1 ≤ rest.length
  · have hg : SimdWorker.gather o VECTOR_SIZE buf ⟨t :: rest, w⟩
        = Gathered.group t ((rest.take (VECTOR_SIZE - 1)).map some)
            ⟨rest.drop (VECTOR_SIZE - 1), w⟩ := by
      rw [gather_cons ho, if_pos h]
    refine ⟨(rest.take (VECTOR_SIZE - 1)).map some, ⟨rest.drop (VECTOR_SIZE - 1), w⟩, hg,
      ?_, ?_, ?_, ?_, ?_, hbuf, ?_, hiter _ _ hg, hrun⟩
    · intro h1; omega
    · intro _; simp [List.length_take]; omega
    · right
      simp only [handedBy, List.length_cons, List.length_map, List.length_take]
      omega
    · intro hm
      obtain ⟨x, _, hx⟩ := List.mem_map.mp hm
      cases hx
    · simp [List.length_take, Nat.min_eq_left h]
    · intro h1
      simp [h1]
  · have hg : SimdWorker.gather o VECTOR_SIZE buf ⟨t :: rest, w⟩
        = Gathered.group t [] ⟨rest, w⟩ := by
      rw [gather_cons ho, if_neg h]
    refine ⟨[], ⟨rest, w⟩, hg, ?_, ?_, ?_, ?_, ?_, hbuf, ?_, hiter _ _ hg, hrun⟩
    · intro _; rfl
    · intro h1; exact absurd h1 h
    · left; rfl
    · simp
    · simp
    · intro _; rfl

theorem SimdWorker_cobatch_all_or_nothing_witness :
    Fifo (ConcurrentQueue.ops : QueueOps Nat (ConcurrentQueue Nat)) ∧ 1 ≤ 4 ∧
    (∃ co q2, SimdWorker.gather ConcurrentQueue.ops 4 [some 9] ⟨1 :: [2, 3], 0⟩
        = Gathered.group 1 co q2
      ∧ ([2, 3].length < 4 - 1 → co = [])
      ∧ (4 - 1 ≤ [2, 3].length → co.length = 4 - 1)
      ∧ ((handedBy (1, CoBatch.tasks co)).length = 1
          ∨ (handedBy (1, CoBatch.tasks co)).length = 4)
      ∧ none ∉ co
      ∧ co = ([2, 3].take co.length).map some
      ∧ SimdWorker.gather ConcurrentQueue.ops 4 [some 9] ⟨1 :: [2, 3], 0⟩
          = SimdWorker.gather ConcurrentQueue.ops 4 [] ⟨1 :: [2, 3], 0⟩
      ∧ (4 = 1 → co = [])
      ∧ (∀ (execute : Nat → CoBatch Nat → ConcurrentQueue Nat →
            ExecResult (ConcurrentQueue Nat)) (fuel : Nat),
          (SimdWorker.loop ConcurrentQueue.ops 4 execute (fuel + 1) [some 9]
              ⟨1 :: [2, 3], 0⟩).calls.head?
            = some (1, CoBatch.tasks co)
          ∧ (∀ err q3, execute 1 (CoBatch.tasks co) q2 = ExecResult.returned err q3 →
              SimdWorker.loop ConcurrentQueue.ops 4 execute (fuel + 1) [some 9] ⟨1 :: [2, 3], 0⟩
                = ⟨(1, CoBatch.tasks co)
                    :: (SimdWorker.loop ConcurrentQueue.ops 4 execute fuel co q3).calls,
                  (SimdWorker.loop ConcurrentQueue.ops 4 execute fuel co q3).queue,
                  (SimdWorker.loop ConcurrentQueue.ops 4 execute fuel co q3).exit⟩)
          ∧ (∀ q3, execute 1 (CoBatch.tasks co) q2 = ExecResult.threw q3 →
              SimdWorker.loop ConcurrentQueue.ops 4 execute (fuel + 1) [some 9] ⟨1 :: [2, 3], 0⟩
                = ⟨[(1, CoBatch.tasks co)], q3, Exit.threw⟩)
          ∧ (∀ q, SimdWorker.loop ConcurrentQueue.ops 4 execute fuel [some 9] q
                = SimdWorker.loop ConcurrentQueue.ops 4 execute fuel [] q))
      ∧ (∀ (execute : Nat → CoBatch Nat → ConcurrentQueue Nat →
            ExecResult (ConcurrentQueue Nat)) (fuel : Nat) (q : ConcurrentQueue Nat),
          ∀ c ∈ (SimdWorker ConcurrentQueue.ops 4 execute fuel q).calls,
            ∃ group, c.2 = CoBatch.tasks group
              ∧ (group = [] ∨ group.length = 4 - 1) ∧ none ∉ group)) :=
  ⟨fifo_ops, by decide,
    SimdWorker_cobatch_all_or_nothing ConcurrentQueue.ops fifo_ops 4 (by decide) [some 9] 1
      [2, 3] 0⟩

end impl
end seqan
